import Mathlib

/-!
Verification of the steadyfocus task store, partition engine, focus-session
controller and sync reconciler, shallowly embedded from the application
source (App.tsx, FocusMode.tsx, TaskItem.tsx, utils/api.ts).
-/

namespace SteadyFocus

/-- A JavaScript `Date` in local time, split into the local calendar day and
the milliseconds elapsed since that day began at local midnight. -/
structure Date where
  day : Int
  tod : Nat
  deriving DecidableEq

/-- Milliseconds since the epoch; JavaScript `Date` comparison operates on
this value. -/
def toMillis (d : Date) : Int := d.day * 86400000 + (d.tod : Int)

/-- The JavaScript comparison `d1 < d2` on two dates. -/
def beforeDate (d1 d2 : Date) : Bool := decide (toMillis d1 < toMillis d2)

/-- The JavaScript test `d1.toDateString() === d2.toDateString()`: the two
dates fall on the same local calendar day. -/
def sameDay (d1 d2 : Date) : Bool := d1.day == d2.day

/-- The construction `new Date(now.getFullYear(), now.getMonth(), now.getDate())`
(equivalently `setHours(0, 0, 0, 0)`): the date floored to local midnight. -/
def floorToMidnight (d : Date) : Date := ⟨d.day, 0⟩

/-- The `recurring` enumeration of a task. -/
inductive Recurring where
  | daily
  | weekly
  | monthly
  deriving DecidableEq

/-- The `Task` record of App.tsx. Optional numeric fields that the code reads
through `|| 0` or `?? -1` defaulting are embedded with their defaulted type. -/
structure Task where
  id : String
  title : String
  completed : Bool
  createdAt : Date
  scheduledDate : Option Date
  recurring : Option Recurring
  timeSpent : Nat
  startedAt : Option Date
  completedAt : Option Date
  notes : Option String
  pomodoroSessions : Nat
  order : Int
  deriving DecidableEq

/-- The `filter` state of App.tsx, either the today view or the all view. -/
inductive ViewFilter where
  | today
  | all
  deriving DecidableEq

/-- `getFilteredTasks` of App.tsx: drops completed tasks; in the today view it
further drops tasks scheduled strictly before today (overdue) and keeps tasks
scheduled on today or carrying no schedule. -/
def getFilteredTasks (filter : ViewFilter) (now : Date) (tasks : List Task) : List Task :=
  let today := floorToMidnight now
  tasks.filter fun task =>
    if task.completed then false
    else
      match filter with
      | .today =>
        match task.scheduledDate with
        | some sd => if beforeDate sd today then false else sameDay sd today
        | none => true
      | .all => true

/-- `getOverdueTasks` of App.tsx: incomplete tasks whose scheduled date lies
strictly before today at local midnight. -/
def getOverdueTasks (now : Date) (tasks : List Task) : List Task :=
  let today := floorToMidnight now
  tasks.filter fun task =>
    if task.completed then false
    else
      match task.scheduledDate with
      | some sd => beforeDate sd today
      | none => false

/-- `updateTaskTime` of App.tsx: adds `seconds` to the `timeSpent` of the task
whose id matches. -/
def updateTaskTime (id : String) (seconds : Nat) (tasks : List Task) : List Task :=
  tasks.map fun task =>
    if task.id == id then { task with timeSpent := task.timeSpent + seconds } else task

/-- `updateTaskSchedule` of App.tsx: stores the given date as the scheduled
date of the task whose id matches. -/
def updateTaskSchedule (id : String) (scheduledDate : Date) (tasks : List Task) : List Task :=
  tasks.map fun task =>
    if task.id == id then { task with scheduledDate := some scheduledDate } else task

/-- `updateTaskTitle` of App.tsx: stores the given title on the task whose id
matches. -/
def updateTaskTitle (id : String) (title : String) (tasks : List Task) : List Task :=
  tasks.map fun task =>
    if task.id == id then { task with title := title } else task

/-- `incrementPomodoroSession` of App.tsx: adds one to `pomodoroSessions` of
the task whose id matches. -/
def incrementPomodoroSession (id : String) (tasks : List Task) : List Task :=
  tasks.map fun task =>
    if task.id == id then { task with pomodoroSessions := task.pomodoroSessions + 1 } else task

/-- `startTask` of App.tsx, restricted to its effect on the task list: sets
`startedAt` on the target task and clears it on every other task. -/
def startTask (now : Date) (id : String) (tasks : List Task) : List Task :=
  tasks.map fun task =>
    { task with startedAt := if task.id == id then some now else none }

/-- The task-list update performed by `completeTask` of App.tsx: marks the
matching task completed, stamps `completedAt`, clears `startedAt`. -/
def completeTaskUpdate (now : Date) (id : String) (tasks : List Task) : List Task :=
  tasks.map fun task =>
    if task.id == id then { task with completed := true, completedAt := some now, startedAt := none }
    else task

/-- The order reassignment inside `reorderTasks` of App.tsx:
`newTasks.map((t, index) => ({ ...t, order: index }))`. -/
def withOrders (tasks : List Task) : List Task :=
  tasks.mapIdx fun index t => { t with order := (index : Int) }

/-- `reorderTasks` of App.tsx, restricted to its effect on the task list:
looks up both indices, removes the dragged task, reinserts it at the hover
index taken in the original list, then renumbers `order` positionally. A
missing id leaves the list unchanged. -/
def reorderTasks (dragId hoverId : String) (tasks : List Task) : List Task :=
  match tasks.findIdx? (fun t => t.id == dragId), tasks.findIdx? (fun t => t.id == hoverId) with
  | some dragIndex, some hoverIndex =>
    match tasks[dragIndex]? with
    | some draggedTask => withOrders ((tasks.eraseIdx dragIndex).insertIdx hoverIndex draggedTask)
    | none => tasks
  | _, _ => tasks

/-- The merge performed in the `tasksApi.create(...).then` callback of
`addTask` in App.tsx: the durable record from the server wins on identity
fields while the current client-side values of order, completion, title,
notes, schedule, time tracking, start state and pomodoro count are kept. -/
def mergeCreated (created t : Task) : Task :=
  { created with
    order := t.order
    completed := t.completed
    title := t.title
    notes := t.notes
    scheduledDate := t.scheduledDate
    timeSpent := t.timeSpent
    startedAt := t.startedAt
    pomodoroSessions := t.pomodoroSessions }

/-- The reconciliation `setTasks` of `addTask` in App.tsx: every task whose id
equals the provisional id is replaced by the merge of the created record with
the current client task. -/
def reconcileCreated (provisionalId : String) (created : Task) (tasks : List Task) : List Task :=
  tasks.map fun t => if t.id == provisionalId then mergeCreated created t else t

/-- JavaScript `findIndex`: the index of the first match, or -1 when there is
none. -/
def jsFindIndex (p : Task → Bool) (l : List Task) : Int :=
  match l.findIdx? p with
  | some i => (i : Int)
  | none => -1

/-- `completeTask` of App.tsx: returns the updated task list together with the
new current-task pointer it computes from the filtered view of the updated
list (JavaScript `findIndex` returning -1 is embedded as the integer -1). -/
def completeTask (filter : ViewFilter) (now : Date) (id : String) (tasks : List Task) :
    List Task × Option String :=
  let updatedTasks := completeTaskUpdate now id tasks
  let filteredTasks := getFilteredTasks filter now updatedTasks
  let currentIndex : Int := jsFindIndex (fun t => t.id == id) filteredTasks
  let newCurrent : Option String :=
    if currentIndex < Int.ofNat filteredTasks.length - 1 then
      (filteredTasks[(currentIndex + 1).toNat]?).map (fun t => t.id)
    else if 1 < filteredTasks.length then
      (filteredTasks[0]?).map (fun t => t.id)
    else none
  (updatedTasks, newCurrent)

/-- The pending-task test of `syncTasks` in App.tsx: a provisional id is a
short id, `t.id.length < 20`. -/
def isPending (t : Task) : Bool := decide (t.id.length < 20)

/-- The externally visible effects of one run of the `syncTasks` effect in
App.tsx: the task list written to the local fallback cache, and the argument
of each call made to `tasksApi.bulkUpdate`. -/
structure SyncEffect where
  localWrite : Option (List Task)
  bulkUpdateCalls : List (List Task)
  deriving DecidableEq

/-- One run of the `syncTasks` effect of App.tsx: it bails out when not
authenticated or still loading; otherwise it always writes the local fallback
cache first, then suppresses the bulk-update call whenever some task still
carries a pending (provisional) id. -/
def syncTasks (authed : Bool) (isLoading : Bool) (tasks : List Task) : SyncEffect :=
  if !authed || isLoading then ⟨none, []⟩
  else if tasks.any isPending then ⟨some tasks, []⟩
  else ⟨some tasks, [tasks]⟩

/-- Whitespace as recognised by JavaScript `String.prototype.trim`, restricted
to the common ASCII whitespace characters. -/
def isJsWhitespace (c : Char) : Bool :=
  c == ' ' || c == '\t' || c == '\n' || c == '\r'

/-- JavaScript `String.prototype.trim`: drops leading and trailing
whitespace. -/
def jsTrim (s : String) : String :=
  String.mk (((s.toList.dropWhile isJsWhitespace).reverse.dropWhile isJsWhitespace).reverse)

/-- The title edit commit handler of TaskItem.tsx (identical on Enter and on
blur): the store is touched only when the trimmed edit text is non-empty and
the raw edit text differs from the current title, in which case the trimmed
text becomes the new title. -/
def commitTitleEdit (task : Task) (editTitle : String) (tasks : List Task) : List Task :=
  if jsTrim editTitle ≠ "" ∧ editTitle ≠ task.title then
    updateTaskTitle task.id (jsTrim editTitle) tasks
  else tasks

/-- The session-local state of FocusMode.tsx: the task list it mutates through
callbacks, the elapsed display, the accumulated-but-unflushed seconds, and the
running, mode, countdown and break flags. -/
structure FocusState where
  tasks : List Task
  timeElapsed : Nat
  sessionSeconds : Nat
  isRunning : Bool
  isPomodoroMode : Bool
  pomodoroTime : Nat
  isBreak : Bool
  deriving DecidableEq

/-- One firing of the interval callback of FocusMode.tsx, with the flush batch
threshold made a parameter (the source hardcodes 10). Stopwatch mode counts
up and flushes full batches; Pomodoro work mode additionally counts the
interval down; expiry of the work interval stops the timer, flushes the
remainder, increments the pomodoro counter and enters the break; expiry of the
break re-arms a stopped work interval. -/
def tickFocusT (threshold : Nat) (taskId : String) (st : FocusState) : FocusState :=
  if st.isRunning then
    if st.isPomodoroMode then
      if 0 < st.pomodoroTime then
        let st1 := { st with pomodoroTime := st.pomodoroTime - 1 }
        if st1.isBreak then st1
        else
          let s := st1.sessionSeconds + 1
          if threshold ≤ s then
            { st1 with
              timeElapsed := st1.timeElapsed + 1
              sessionSeconds := 0
              tasks := updateTaskTime taskId s st1.tasks }
          else { st1 with timeElapsed := st1.timeElapsed + 1, sessionSeconds := s }
      else
        let st1 := { st with isRunning := false }
        if st1.isBreak then { st1 with isBreak := false, pomodoroTime := 25 * 60 }
        else
          let st2 :=
            if 0 < st1.sessionSeconds then
              { st1 with
                tasks := updateTaskTime taskId st1.sessionSeconds st1.tasks
                sessionSeconds := 0 }
            else st1
          { st2 with
            tasks := incrementPomodoroSession taskId st2.tasks
            isBreak := true
            pomodoroTime := 5 * 60 }
    else
      let s := st.sessionSeconds + 1
      if threshold ≤ s then
        { st with
          timeElapsed := st.timeElapsed + 1
          sessionSeconds := 0
          tasks := updateTaskTime taskId s st.tasks }
      else { st with timeElapsed := st.timeElapsed + 1, sessionSeconds := s }
  else st

/-- The tick of FocusMode.tsx with its hardcoded flush threshold of 10. -/
def tickFocus (taskId : String) (st : FocusState) : FocusState :=
  tickFocusT 10 taskId st

/-- `handleStop` of FocusMode.tsx restricted to timer state: stop running and
flush any accumulated-but-unflushed seconds into the store. -/
def handleStop (taskId : String) (st : FocusState) : FocusState :=
  let st1 := { st with isRunning := false }
  if 0 < st1.sessionSeconds then
    { st1 with
      tasks := updateTaskTime taskId st1.sessionSeconds st1.tasks
      sessionSeconds := 0 }
  else st1

/-- The controller state right after starting the stopwatch on a task: the
elapsed display resumes from the stored `timeSpent` and the unflushed counter
is zero. -/
def startStopwatch (tasks : List Task) (t : Task) : FocusState :=
  ⟨tasks, t.timeSpent, 0, true, false, 25 * 60, false⟩

/-- The controller state right after starting a Pomodoro session on a task:
running in work mode with the full 1500-second work interval remaining. -/
def startPomodoro (tasks : List Task) (t : Task) : FocusState :=
  ⟨tasks, t.timeSpent, 0, true, true, 25 * 60, false⟩

/-- N stopwatch ticks at flush threshold `threshold` followed by Stop. -/
def runStopwatch (threshold N : Nat) (taskId : String) (tasks : List Task) (t : Task) :
    FocusState :=
  handleStop taskId ((tickFocusT threshold taskId)^[N] (startStopwatch tasks t))

/-- A full Pomodoro work interval: the 1500 counting ticks plus the expiry
tick that performs the transition to the break. -/
def runPomodoroWork (taskId : String) (tasks : List Task) (t : Task) : FocusState :=
  (tickFocus taskId)^[25 * 60 + 1] (startPomodoro tasks t)

/-- The local mutations of App.tsx that can land while a create request is in
flight, as listed in the reconciliation contract. -/
inductive Mutation where
  | retitle (id : String) (title : String)
  | reschedule (id : String) (d : Date)
  | reorder (dragId : String) (hoverId : String)
  | complete (id : String) (now : Date)
  | accumulate (id : String) (seconds : Nat)
  | incrementPomodoro (id : String)
  | start (id : String) (now : Date)

/-- Interpretation of one local mutation on the task list, each case being the
corresponding App.tsx operation. -/
def applyMut (m : Mutation) (tasks : List Task) : List Task :=
  match m with
  | .retitle id title => updateTaskTitle id title tasks
  | .reschedule id d => updateTaskSchedule id d tasks
  | .reorder dragId hoverId => reorderTasks dragId hoverId tasks
  | .complete id now => completeTaskUpdate now id tasks
  | .accumulate id s => updateTaskTime id s tasks
  | .incrementPomodoro id => incrementPomodoroSession id tasks
  | .start id now => startTask now id tasks

/-- A sequence of local mutations applied in order. -/
def applyMuts (ms : List Mutation) (tasks : List Task) : List Task :=
  ms.foldl (fun s m => applyMut m s) tasks

/-- An example creation day. -/
def exDate0 : Date := ⟨19990, 0⟩

/-- An example current instant: day 20000 at one hour past local midnight. -/
def exNow : Date := ⟨20000, 3600000⟩

/-- The day after the example current day, at local midnight. -/
def exTomorrow : Date := ⟨20001, 0⟩

/-- An example date whose time-of-day component is noon, not midnight. -/
def exNoonDate : Date := ⟨20010, 43200000⟩

/-- A fresh unscheduled incomplete task used in concrete instances. -/
def baseTask (i : String) (ttl : String) (ord : Int) : Task :=
  ⟨i, ttl, false, exDate0, none, none, 0, none, none, none, 0, ord⟩

/-- Example task with id A. -/
def exTaskA : Task := baseTask "A" "Task A" 0

/-- Example task with id B. -/
def exTaskB : Task := baseTask "B" "Task B" 1

/-- Example task with id C. -/
def exTaskC : Task := baseTask "C" "Task C" 2

/-- Example incomplete task scheduled strictly after today. -/
def exFutureTask : Task := { baseTask "F" "Future" 0 with scheduledDate := some exTomorrow }

/-- Example task carrying a short, provisional id as produced by `Date.now()`. -/
def exPendingTask : Task := baseTask "1730000000000" "Pending" 0

/-- Example task carrying a long, durable server id. -/
def exDurableTask : Task :=
  { baseTask "3f2504e0-4f89-11d3-9a0c-0305e82c3301" "Pending" 0 with createdAt := ⟨20002, 0⟩ }

/-- The three example tasks in order. -/
def exList3 : List Task := [exTaskA, exTaskB, exTaskC]

/-- An example in-flight mutation sequence hitting the provisionally created
task. -/
def exMutations : List Mutation :=
  [Mutation.retitle "1730000000000" "X", Mutation.reschedule "1730000000000" exTomorrow]

theorem getElem?_updateTaskTime (id : String) (s : Nat) (tasks : List Task) (i : Nat) :
    (updateTaskTime id s tasks)[i]? =
      (tasks[i]?).map
        (fun t => if t.id == id then { t with timeSpent := t.timeSpent + s } else t) := by
  simp [updateTaskTime]

theorem map_eq_self_of_ne_id (f : Task → Task) (id : String)
    (hf : ∀ t : Task, (t.id == id) = false → f t = t) :
    ∀ (tasks : List Task), (∀ t ∈ tasks, t.id ≠ id) → tasks.map f = tasks := by
  intro tasks
  induction tasks with
  | nil => intro _; rfl
  | cons a l ih =>
    intro h
    have ha : (a.id == id) = false :=
      beq_eq_false_iff_ne.mpr (h a (List.mem_cons_self a l))
    have ht := ih (fun t ht2 => h t (List.mem_cons_of_mem a ht2))
    simp [List.map_cons, hf a ha, ht]

/-- C10: `updateTaskTime(id, s)` changes at most the `timeSpent` field of the
task whose id matches, adding `s` to it; every other field, every other task
and the list order are unchanged, and a missing id leaves the list equal. -/
theorem updateTaskTime_frame (id : String) (s : Nat) (tasks : List Task) :
    (∀ i : Nat, (updateTaskTime id s tasks)[i]? =
      (tasks[i]?).map
        (fun t => if t.id == id then { t with timeSpent := t.timeSpent + s } else t)) ∧
    ((∀ t ∈ tasks, t.id ≠ id) → updateTaskTime id s tasks = tasks) := by
  refine ⟨fun i => getElem?_updateTaskTime id s tasks i, fun h => ?_⟩
  exact map_eq_self_of_ne_id _ id (fun t ht => by simp [ht]) tasks h

/-- Witness for C10 at a concrete list with no matching id. -/
theorem updateTaskTime_frame_witness :
    updateTaskTime "Z" 5 [exTaskA, exTaskB] = [exTaskA, exTaskB] :=
  (updateTaskTime_frame "Z" 5 [exTaskA, exTaskB]).2 (by decide)

/-- C2: when some task still carries a provisional (short) id, one run of the
sync step writes only the local fallback cache and issues no bulk-update
call; when every id is durable it issues exactly one bulk-update call. -/
theorem syncTasks_suppresses_pending (tasks : List Task) :
    (tasks.any isPending = true →
      (syncTasks true false tasks).bulkUpdateCalls = [] ∧
      (syncTasks true false tasks).localWrite = some tasks) ∧
    (tasks.any isPending = false →
      (syncTasks true false tasks).bulkUpdateCalls = [tasks] ∧
      (syncTasks true false tasks).localWrite = some tasks) := by
  constructor <;> intro h <;> simp [syncTasks, h]

/-- Witness for C2: a pending id suppresses the call, a durable id yields
exactly one call. -/
theorem syncTasks_suppresses_pending_witness :
    (syncTasks true false [exPendingTask]).bulkUpdateCalls = [] ∧
    (syncTasks true false [exDurableTask]).bulkUpdateCalls = [[exDurableTask]] :=
  ⟨((syncTasks_suppresses_pending [exPendingTask]).1 (by decide)).1,
   ((syncTasks_suppresses_pending [exDurableTask]).2 (by decide)).1⟩

/-- C9: committing a title edit whose text trims to the empty string leaves
the task list unchanged. -/
theorem commitTitleEdit_rejects_blank (task : Task) (editTitle : String) (tasks : List Task)
    (h : jsTrim editTitle = "") : commitTitleEdit task editTitle tasks = tasks := by
  unfold commitTitleEdit
  rw [if_neg]
  rintro ⟨h1, -⟩
  exact h1 h

/-- Witness for C9 on a whitespace-only edit. -/
theorem commitTitleEdit_rejects_blank_witness :
    commitTitleEdit exTaskA "   " [exTaskA] = [exTaskA] :=
  commitTitleEdit_rejects_blank exTaskA "   " [exTaskA] (by decide)

/-- Counterexample to C8: rescheduling to a date whose time-of-day is noon
stores that date unchanged, not floored to local midnight. -/
theorem updateTaskSchedule_floor_fails :
    (updateTaskSchedule "A" exNoonDate [exTaskA]).map (fun t => t.scheduledDate) ≠
      [some (floorToMidnight exNoonDate)] := by decide

/-- C8 (amended): `reschedule(id, date)` stores the given date as is on the
matching task, leaving every other field, every other task and the list order
unchanged; a missing id leaves the list equal. -/
theorem updateTaskSchedule_sets_date (id : String) (d : Date) (tasks : List Task) :
    (∀ i : Nat, (updateTaskSchedule id d tasks)[i]? =
      (tasks[i]?).map
        (fun t => if t.id == id then { t with scheduledDate := some d } else t)) ∧
    ((∀ t ∈ tasks, t.id ≠ id) → updateTaskSchedule id d tasks = tasks) := by
  refine ⟨fun i => by simp [updateTaskSchedule], fun h => ?_⟩
  exact map_eq_self_of_ne_id _ id (fun t ht => by simp [ht]) tasks h

/-- Witness for C8 at a concrete list with no matching id. -/
theorem updateTaskSchedule_sets_date_witness :
    updateTaskSchedule "Z" exNoonDate [exTaskA] = [exTaskA] :=
  (updateTaskSchedule_sets_date "Z" exNoonDate [exTaskA]).2 (by decide)

/-- Counterexample to C6: an incomplete task scheduled strictly after today is
neither overdue, nor in the today view, nor completed, so the three
classifications are not exhaustive. -/
theorem partition_trichotomy_fails :
    exFutureTask.completed = false ∧
    exFutureTask ∉ getOverdueTasks exNow [exFutureTask] ∧
    exFutureTask ∉ getFilteredTasks .today exNow [exFutureTask] := by decide

theorem mem_getOverdueTasks (now : Date) (tasks : List Task) (t : Task) :
    t ∈ getOverdueTasks now tasks ↔
      t ∈ tasks ∧ t.completed = false ∧
        ∃ sd, t.scheduledDate = some sd ∧ beforeDate sd (floorToMidnight now) = true := by
  unfold getOverdueTasks
  rw [List.mem_filter]
  cases hc : t.completed <;> cases hsd : t.scheduledDate <;> simp [hc, hsd]

theorem mem_getFilteredTasks_today (now : Date) (tasks : List Task) (t : Task) :
    t ∈ getFilteredTasks .today now tasks ↔
      t ∈ tasks ∧ t.completed = false ∧
        (t.scheduledDate = none ∨
          ∃ sd, t.scheduledDate = some sd ∧
            beforeDate sd (floorToMidnight now) = false ∧
            sameDay sd (floorToMidnight now) = true) := by
  unfold getFilteredTasks
  rw [List.mem_filter]
  cases hc : t.completed with
  | true => simp [hc]
  | false =>
    cases hsd : t.scheduledDate with
    | none => simp [hc, hsd]
    | some sd =>
      cases hb : beforeDate sd (floorToMidnight now) <;> simp [hc, hsd, hb]

/-- C6 (amended): every task satisfies at most one of overdue, today view and
completed; the overdue view and the today view are disjoint; and every
incomplete task that is unscheduled, overdue-dated or today-dated lands in
one of the two views. -/
theorem partition_at_most_one (now : Date) (tasks : List Task) :
    (∀ t, ¬(t ∈ getOverdueTasks now tasks ∧ t ∈ getFilteredTasks .today now tasks)) ∧
    (∀ t, t ∈ getOverdueTasks now tasks → t.completed = false) ∧
    (∀ t, t ∈ getFilteredTasks .today now tasks → t.completed = false) ∧
    (∀ t, t ∈ tasks → t.completed = false →
      (t.scheduledDate = none ∨
        ∃ sd, t.scheduledDate = some sd ∧
          (beforeDate sd (floorToMidnight now) = true ∨
            sameDay sd (floorToMidnight now) = true)) →
      t ∈ getOverdueTasks now tasks ∨ t ∈ getFilteredTasks .today now tasks) := by
  refine ⟨?_, ?_, ?_, ?_⟩
  · rintro t ⟨h1, h2⟩
    rw [mem_getOverdueTasks] at h1
    rw [mem_getFilteredTasks_today] at h2
    obtain ⟨-, -, sd, hsd, hb⟩ := h1
    obtain ⟨-, -, h2r⟩ := h2
    rcases h2r with hnone | ⟨sd2, hsd2, hb2, -⟩
    · rw [hsd] at hnone
      cases hnone
    · rw [hsd] at hsd2
      injection hsd2 with he
      rw [he] at hb
      rw [hb] at hb2
      cases hb2
  · intro t h1
    exact ((mem_getOverdueTasks now tasks t).mp h1).2.1
  · intro t h2
    exact ((mem_getFilteredTasks_today now tasks t).mp h2).2.1
  · intro t ht hc hor
    rcases hor with hnone | ⟨sd, hsd, hbs⟩
    · exact Or.inr ((mem_getFilteredTasks_today now tasks t).mpr ⟨ht, hc, Or.inl hnone⟩)
    · by_cases hb : beforeDate sd (floorToMidnight now) = true
      · exact Or.inl ((mem_getOverdueTasks now tasks t).mpr ⟨ht, hc, sd, hsd, hb⟩)
      · rcases hbs with hb2 | hs
        · exact absurd hb2 hb
        · exact Or.inr ((mem_getFilteredTasks_today now tasks t).mpr
            ⟨ht, hc, Or.inr ⟨sd, hsd, Bool.eq_false_iff.mpr hb, hs⟩⟩)

/-- Witness for C6: the unscheduled incomplete example task lands in one of
the two views. -/
theorem partition_at_most_one_witness :
    exTaskA ∈ getOverdueTasks exNow [exTaskA] ∨
    exTaskA ∈ getFilteredTasks .today exNow [exTaskA] :=
  (partition_at_most_one exNow [exTaskA]).2.2.2 exTaskA (by decide) (by decide) (Or.inl rfl)

theorem length_withOrders (l : List Task) : (withOrders l).length = l.length := by
  simp [withOrders]

theorem getElem?_withOrders (l : List Task) (i : Nat) :
    (withOrders l)[i]? = (l[i]?).map (fun t => { t with order := (i : Int) }) := by
  simp [withOrders]

/-- C3: when both ids are present, reordering keeps the length, puts the
dragged task at the position the target occupied in the original list, and
renumbers every `order` field to its 0-based index in the resulting list;
when either id is absent the list is unchanged. -/
theorem reorderTasks_spec (dragId hoverId : String) (tasks : List Task) :
    (∀ d h2 : Nat, tasks.findIdx? (fun t => t.id == dragId) = some d →
        tasks.findIdx? (fun t => t.id == hoverId) = some h2 →
        (reorderTasks dragId hoverId tasks).length = tasks.length ∧
        ((reorderTasks dragId hoverId tasks)[h2]?).map Task.id = some dragId ∧
        (∀ i : Nat, i < (reorderTasks dragId hoverId tasks).length →
          ((reorderTasks dragId hoverId tasks)[i]?).map Task.order = some (i : Int))) ∧
    ((tasks.findIdx? (fun t => t.id == dragId) = none ∨
        tasks.findIdx? (fun t => t.id == hoverId) = none) →
      reorderTasks dragId hoverId tasks = tasks) := by
  constructor
  · intro d h2 hd hh
    obtain ⟨hdlt, hpd, -⟩ := List.findIdx?_eq_some_iff_getElem.mp hd
    obtain ⟨hhlt, -, -⟩ := List.findIdx?_eq_some_iff_getElem.mp hh
    have hre : reorderTasks dragId hoverId tasks =
        withOrders ((tasks.eraseIdx d).insertIdx h2 (tasks.get ⟨d, hdlt⟩)) := by
      unfold reorderTasks
      rw [hd, hh]
      show (match tasks[d]? with
        | some draggedTask => withOrders (List.insertIdx h2 draggedTask (tasks.eraseIdx d))
        | none => tasks) = _
      rw [List.getElem?_eq_getElem hdlt]
      rfl
    have hlenE : (tasks.eraseIdx d).length = tasks.length - 1 :=
      List.length_eraseIdx_of_lt hdlt
    have hh2le : h2 ≤ (tasks.eraseIdx d).length := by omega
    have hlenI : ((tasks.eraseIdx d).insertIdx h2 (tasks.get ⟨d, hdlt⟩)).length = tasks.length := by
      have hstep := List.length_insertIdx h2 (tasks.eraseIdx d) hh2le
        (a := tasks.get ⟨d, hdlt⟩)
      omega
    refine ⟨?_, ?_, ?_⟩
    · rw [hre, length_withOrders]
      exact hlenI
    · rw [hre, getElem?_withOrders]
      have hlt : h2 < ((tasks.eraseIdx d).insertIdx h2 (tasks.get ⟨d, hdlt⟩)).length := by omega
      rw [List.getElem?_eq_getElem hlt, List.getElem_insertIdx_self _ _ _ hh2le]
      simpa using eq_of_beq hpd
    · intro i hi
      rw [hre] at hi ⊢
      rw [length_withOrders] at hi
      rw [getElem?_withOrders, List.getElem?_eq_getElem hi]
      rfl
  · intro h
    rcases h with h | h
    · unfold reorderTasks
      rw [h]
    · unfold reorderTasks
      cases hx : tasks.findIdx? (fun t => t.id == dragId) with
      | none => rfl
      | some d => rw [h]

/-- Witness for C3 on the concrete three-task list: dragging A onto C puts A
at index 2 and renumbers orders positionally. -/
theorem reorderTasks_spec_witness :
    ((reorderTasks "A" "C" exList3)[2]?).map Task.id = some "A" ∧
    ((reorderTasks "A" "C" exList3)[1]?).map Task.order = some 1 := by
  have h := (reorderTasks_spec "A" "C" exList3).1 0 2 (by decide) (by decide)
  exact ⟨h.2.1, h.2.2 1 (by decide)⟩

theorem find?_updateTaskTime (id : String) (s : Nat) :
    ∀ (l : List Task) (t : Task), l.find? (fun u => u.id == id) = some t →
      (updateTaskTime id s l).find? (fun u => u.id == id) =
        some { t with timeSpent := t.timeSpent + s } := by
  intro l
  induction l with
  | nil => intro t ht; simp at ht
  | cons a l ih =>
    intro t ht
    simp only [updateTaskTime, List.map_cons]
    by_cases ha : (a.id == id) = true
    · rw [List.find?_cons_of_pos (p := fun u : Task => u.id == id) _ ha] at ht
      injection ht with he
      subst he
      rw [if_pos ha]
      exact List.find?_cons_of_pos _ ha
    · rw [List.find?_cons_of_neg (p := fun u : Task => u.id == id) _ ha] at ht
      rw [if_neg ha]
      rw [List.find?_cons_of_neg (p := fun u : Task => u.id == id) _ ha]
      exact ih t ht

theorem find?_incrementPomodoroSession (id : String) :
    ∀ (l : List Task) (t : Task), l.find? (fun u => u.id == id) = some t →
      (incrementPomodoroSession id l).find? (fun u => u.id == id) =
        some { t with pomodoroSessions := t.pomodoroSessions + 1 } := by
  intro l
  induction l with
  | nil => intro t ht; simp at ht
  | cons a l ih =>
    intro t ht
    simp only [incrementPomodoroSession, List.map_cons]
    by_cases ha : (a.id == id) = true
    · rw [List.find?_cons_of_pos (p := fun u : Task => u.id == id) _ ha] at ht
      injection ht with he
      subst he
      rw [if_pos ha]
      exact List.find?_cons_of_pos _ ha
    · rw [List.find?_cons_of_neg (p := fun u : Task => u.id == id) _ ha] at ht
      rw [if_neg ha]
      rw [List.find?_cons_of_neg (p := fun u : Task => u.id == id) _ ha]
      exact ih t ht

theorem updateTaskTime_comp (id : String) (a b : Nat) (l : List Task) :
    updateTaskTime id b (updateTaskTime id a l) = updateTaskTime id (a + b) l := by
  unfold updateTaskTime
  rw [List.map_map]
  apply List.map_congr_left
  intro x _
  by_cases hx : (x.id == id) = true
  · simp [Function.comp, hx, Nat.add_assoc]
  · simp [Function.comp, hx]

theorem updateTaskTime_zero (id : String) (l : List Task) : updateTaskTime id 0 l = l := by
  unfold updateTaskTime
  have hpt : ∀ x ∈ l,
      (if x.id == id then { x with timeSpent := x.timeSpent + 0 } else x) = x := by
    intro x _
    by_cases hx : (x.id == id) = true
    · cases x
      simp [hx]
    · simp [hx]
  rw [List.map_congr_left hpt, List.map_id']

theorem stopwatch_iterate (T : Nat) (taskId : String) (tasks0 : List Task) (te0 : Nat) :
    ∀ N : Nat, ∃ fl s : Nat, fl + s = N ∧
      (tickFocusT T taskId)^[N] ⟨tasks0, te0, 0, true, false, 25 * 60, false⟩ =
        ⟨updateTaskTime taskId fl tasks0, te0 + N, s, true, false, 25 * 60, false⟩ := by
  intro N
  induction N with
  | zero => exact ⟨0, 0, rfl, by simp [updateTaskTime_zero]⟩
  | succ N ih =>
    obtain ⟨fl, s, hsum, hst⟩ := ih
    rw [Function.iterate_succ_apply', hst]
    by_cases hT : T ≤ s + 1
    · exact ⟨fl + (s + 1), 0, by omega,
        by simp [tickFocusT, hT, updateTaskTime_comp, Nat.add_assoc]⟩
    · exact ⟨fl, s + 1, by omega,
        by simp [tickFocusT, hT, Nat.add_assoc]⟩

/-- C4: N stopwatch ticks followed by Stop add exactly N seconds to the
stored `timeSpent` of the active task, for every flush batch threshold: the
unflushed remainder is flushed unconditionally at Stop, so no seconds are
lost or double-counted across flush boundaries. -/
theorem flush_conservation (T N : Nat) (taskId : String) (tasks : List Task) (t : Task)
    (ht : tasks.find? (fun u => u.id == taskId) = some t) :
    (runStopwatch T N taskId tasks t).tasks.find? (fun u => u.id == taskId) =
      some { t with timeSpent := t.timeSpent + N } := by
  obtain ⟨fl, s, hsum, hst⟩ := stopwatch_iterate T taskId tasks t.timeSpent N
  unfold runStopwatch startStopwatch
  rw [hst]
  by_cases hs : 0 < s
  · have hstep : handleStop taskId
        ⟨updateTaskTime taskId fl tasks, t.timeSpent + N, s, true, false, 25 * 60, false⟩ =
        ⟨updateTaskTime taskId N tasks, t.timeSpent + N, 0, false, false, 25 * 60, false⟩ := by
      simp [handleStop, hs, updateTaskTime_comp, hsum]
    rw [hstep]
    exact find?_updateTaskTime taskId N tasks t ht
  · have hs0 : s = 0 := by omega
    have hfl : fl = N := by omega
    rw [hs0, hfl]
    have hstep : handleStop taskId
        ⟨updateTaskTime taskId N tasks, t.timeSpent + N, 0, true, false, 25 * 60, false⟩ =
        ⟨updateTaskTime taskId N tasks, t.timeSpent + N, 0, false, false, 25 * 60, false⟩ := by
      simp [handleStop]
    rw [hstep]
    exact find?_updateTaskTime taskId N tasks t ht

/-- Witness for C4: 23 ticks at threshold 10 then Stop add exactly 23
seconds. -/
theorem flush_conservation_witness :
    (runStopwatch 10 23 "A" [exTaskA] exTaskA).tasks.find? (fun u => u.id == "A") =
      some { exTaskA with timeSpent := exTaskA.timeSpent + 23 } :=
  flush_conservation 10 23 "A" [exTaskA] exTaskA (by decide)

theorem pomodoro_iterate (taskId : String) (tasks0 : List Task) (te0 : Nat) :
    ∀ k : Nat, k ≤ 25 * 60 → ∃ fl s : Nat, fl + s = k ∧
      (tickFocus taskId)^[k] ⟨tasks0, te0, 0, true, true, 25 * 60, false⟩ =
        ⟨updateTaskTime taskId fl tasks0, te0 + k, s, true, true, 25 * 60 - k, false⟩ := by
  intro k
  induction k with
  | zero => exact fun _ => ⟨0, 0, rfl, by simp [updateTaskTime_zero]⟩
  | succ k ih =>
    intro hk
    obtain ⟨fl, s, hsum, hst⟩ := ih (by omega)
    rw [Function.iterate_succ_apply', hst]
    have hpt : 0 < 25 * 60 - k := by omega
    by_cases hT : 10 ≤ s + 1
    · exact ⟨fl + (s + 1), 0, by omega,
        by simp [tickFocus, tickFocusT, hpt, hT, updateTaskTime_comp,
          Nat.add_assoc, Nat.sub_sub]⟩
    · exact ⟨fl, s + 1, by omega,
        by simp [tickFocus, tickFocusT, hpt, hT, Nat.add_assoc, Nat.sub_sub]⟩

/-- C7: when the 1500-second Pomodoro work interval counts down to zero the
controller stops running, has flushed in total exactly the 1500 accumulated
seconds into the task, increments the task's pomodoro counter by exactly one,
and sits in the Break state with the 5-minute break remaining. -/
theorem pomodoro_expiry (taskId : String) (tasks : List Task) (t : Task)
    (ht : tasks.find? (fun u => u.id == taskId) = some t) :
    (runPomodoroWork taskId tasks t).isRunning = false ∧
    (runPomodoroWork taskId tasks t).isBreak = true ∧
    (runPomodoroWork taskId tasks t).pomodoroTime = 5 * 60 ∧
    (runPomodoroWork taskId tasks t).sessionSeconds = 0 ∧
    (runPomodoroWork taskId tasks t).tasks.find? (fun u => u.id == taskId) =
      some { t with timeSpent := t.timeSpent + 25 * 60,
                    pomodoroSessions := t.pomodoroSessions + 1 } := by
  obtain ⟨fl, s, hsum, hst⟩ :=
    pomodoro_iterate taskId tasks t.timeSpent (25 * 60) (le_refl _)
  unfold runPomodoroWork startPomodoro
  rw [Function.iterate_succ_apply', hst, Nat.sub_self]
  have hfin : tickFocus taskId
      ⟨updateTaskTime taskId fl tasks, t.timeSpent + 25 * 60, s, true, true, 0, false⟩ =
      ⟨incrementPomodoroSession taskId (updateTaskTime taskId (25 * 60) tasks),
        t.timeSpent + 25 * 60, 0, false, true, 5 * 60, true⟩ := by
    by_cases hs : 0 < s
    · simp [tickFocus, tickFocusT, hs, updateTaskTime_comp, hsum]
    · have hs0 : s = 0 := by omega
      subst hs0
      have hfl : fl = 25 * 60 := by omega
      subst hfl
      simp [tickFocus, tickFocusT]
  rw [hfin]
  refine ⟨rfl, rfl, rfl, rfl, ?_⟩
  exact find?_incrementPomodoroSession taskId _ _ (find?_updateTaskTime taskId (25 * 60) tasks t ht)

/-- Witness for C7 on a concrete singleton task list. -/
theorem pomodoro_expiry_witness :
    (runPomodoroWork "A" [exTaskA] exTaskA).isRunning = false ∧
    (runPomodoroWork "A" [exTaskA] exTaskA).isBreak = true ∧
    (runPomodoroWork "A" [exTaskA] exTaskA).pomodoroTime = 5 * 60 ∧
    (runPomodoroWork "A" [exTaskA] exTaskA).sessionSeconds = 0 ∧
    (runPomodoroWork "A" [exTaskA] exTaskA).tasks.find? (fun u => u.id == "A") =
      some { exTaskA with timeSpent := exTaskA.timeSpent + 25 * 60,
                          pomodoroSessions := exTaskA.pomodoroSessions + 1 } :=
  pomodoro_expiry "A" [exTaskA] exTaskA (by decide)

/-- C5, evaluated at the failing input: completing B in the filtered set
[A, B, C] makes A current, because the completed task is filtered out before
its index is looked up, so the walk-forward rule the claim states does not
happen; the claim requires C. -/
theorem completeTask_picks_first_not_next :
    (completeTask .today exNow "B" [exTaskA, exTaskB, exTaskC]).2 = some "A" ∧
    (completeTask .today exNow "B" [exTaskA, exTaskB, exTaskC]).2 ≠ some "C" := by
  constructor <;> decide

theorem perm_get_cons_eraseIdx {α : Type} :
    ∀ (l : List α) (d : Nat) (h : d < l.length), l.Perm (l.get ⟨d, h⟩ :: l.eraseIdx d) := by
  intro l
  induction l with
  | nil => intro d h; simp at h
  | cons a l ih =>
    intro d h
    cases d with
    | zero => exact List.Perm.refl _
    | succ d =>
      have hd : d < l.length := by simpa using h
      exact ((ih d hd).cons a).trans (List.Perm.swap _ _ _)

theorem exists_id_mem_map (f : Task → Task) (hf : ∀ t, (f t).id = t.id)
    (l : List Task) (P : String) (h : ∃ u ∈ l, u.id = P) :
    ∃ v ∈ l.map f, v.id = P := by
  obtain ⟨u, hu, hid⟩ := h
  exact ⟨f u, List.mem_map_of_mem f hu, (hf u).trans hid⟩

theorem exists_id_withOrders (l : List Task) (P : String) (h : ∃ u ∈ l, u.id = P) :
    ∃ v ∈ withOrders l, v.id = P := by
  obtain ⟨u, hu, hid⟩ := h
  obtain ⟨i, hi⟩ := List.mem_iff_getElem?.mp hu
  refine ⟨{ u with order := (i : Int) }, ?_, hid⟩
  apply List.getElem?_mem (n := i)
  rw [getElem?_withOrders, hi]
  rfl

theorem exists_id_reorderTasks (dragId hoverId P : String) (l : List Task)
    (h : ∃ u ∈ l, u.id = P) : ∃ v ∈ reorderTasks dragId hoverId l, v.id = P := by
  unfold reorderTasks
  cases hd : l.findIdx? (fun t => t.id == dragId) with
  | none => exact h
  | some d =>
    cases hh : l.findIdx? (fun t => t.id == hoverId) with
    | none => exact h
    | some h2 =>
      obtain ⟨hdlt, -, -⟩ := List.findIdx?_eq_some_iff_getElem.mp hd
      obtain ⟨hhlt, -, -⟩ := List.findIdx?_eq_some_iff_getElem.mp hh
      show ∃ v ∈ (match l[d]? with
          | some draggedTask => withOrders (List.insertIdx h2 draggedTask (l.eraseIdx d))
          | none => l), v.id = P
      rw [List.getElem?_eq_getElem hdlt]
      show ∃ v ∈ withOrders (List.insertIdx h2 (l.get ⟨d, hdlt⟩) (l.eraseIdx d)), v.id = P
      apply exists_id_withOrders
      obtain ⟨u, hu, hid⟩ := h
      have hu2 : u ∈ l.get ⟨d, hdlt⟩ :: l.eraseIdx d :=
        (perm_get_cons_eraseIdx l d hdlt).mem_iff.mp hu
      have hlen : h2 ≤ (l.eraseIdx d).length := by
        have := List.length_eraseIdx_of_lt hdlt
        omega
      rcases List.mem_cons.mp hu2 with he | hmem
      · exact ⟨u, (List.mem_insertIdx hlen).mpr (Or.inl he), hid⟩
      · exact ⟨u, (List.mem_insertIdx hlen).mpr (Or.inr hmem), hid⟩

theorem applyMut_keeps_id (m : Mutation) (l : List Task) (P : String)
    (h : ∃ u ∈ l, u.id = P) : ∃ v ∈ applyMut m l, v.id = P := by
  cases m with
  | retitle id title =>
    simp only [applyMut, updateTaskTitle]
    exact exists_id_mem_map _
      (fun t => by by_cases ht : (t.id == id) = true <;> simp [ht]) l P h
  | reschedule id d =>
    simp only [applyMut, updateTaskSchedule]
    exact exists_id_mem_map _
      (fun t => by by_cases ht : (t.id == id) = true <;> simp [ht]) l P h
  | reorder dragId hoverId =>
    simp only [applyMut]
    exact exists_id_reorderTasks dragId hoverId P l h
  | complete id now =>
    simp only [applyMut, completeTaskUpdate]
    exact exists_id_mem_map _
      (fun t => by by_cases ht : (t.id == id) = true <;> simp [ht]) l P h
  | accumulate id s =>
    simp only [applyMut, updateTaskTime]
    exact exists_id_mem_map _
      (fun t => by by_cases ht : (t.id == id) = true <;> simp [ht]) l P h
  | incrementPomodoro id =>
    simp only [applyMut, incrementPomodoroSession]
    exact exists_id_mem_map _
      (fun t => by by_cases ht : (t.id == id) = true <;> simp [ht]) l P h
  | start id now =>
    simp only [applyMut, startTask]
    exact exists_id_mem_map
      (fun task => { task with startedAt := if task.id == id then some now else none })
      (fun t => rfl) l P h

theorem applyMuts_keeps_id (ms : List Mutation) :
    ∀ (l : List Task) (P : String),
      (∃ u ∈ l, u.id = P) → ∃ v ∈ applyMuts ms l, v.id = P := by
  induction ms with
  | nil => exact fun l P h => h
  | cons m ms ih =>
    intro l P h
    have hstep : applyMuts (m :: ms) l = applyMuts ms (applyMut m l) := rfl
    rw [hstep]
    exact ih _ P (applyMut_keeps_id m l P h)

/-- C1: a task created with provisional id P survives any sequence of
in-flight local mutations (retitle, reschedule, reorder, complete,
time-accumulate, pomodoro-increment, start); when reconciliation of the
durable record arrives it replaces exactly the tasks with id P, and the
replacement carries the durable id while its title, notes, scheduledDate,
order, completed, timeSpent, startedAt and pomodoroSessions equal the local
values as they stand at that moment. -/
theorem reconcileCreated_preserves (ms : List Mutation) (s0 : List Task) (P : String)
    (newTask created : Task) (hid : newTask.id = P) :
    ∃ t, (applyMuts ms (s0 ++ [newTask])).find? (fun u => u.id == P) = some t ∧
      (∀ i : Nat, (reconcileCreated P created (applyMuts ms (s0 ++ [newTask])))[i]? =
        ((applyMuts ms (s0 ++ [newTask]))[i]?).map
          (fun u => if u.id == P then mergeCreated created u else u)) ∧
      (mergeCreated created t).id = created.id ∧
      (mergeCreated created t).title = t.title ∧
      (mergeCreated created t).notes = t.notes ∧
      (mergeCreated created t).scheduledDate = t.scheduledDate ∧
      (mergeCreated created t).order = t.order ∧
      (mergeCreated created t).completed = t.completed ∧
      (mergeCreated created t).timeSpent = t.timeSpent ∧
      (mergeCreated created t).startedAt = t.startedAt ∧
      (mergeCreated created t).pomodoroSessions = t.pomodoroSessions := by
  have hmem : ∃ u ∈ s0 ++ [newTask], u.id = P := ⟨newTask, by simp, hid⟩
  obtain ⟨v, hv, hvid⟩ := applyMuts_keeps_id ms (s0 ++ [newTask]) P hmem
  have hsome : ((applyMuts ms (s0 ++ [newTask])).find? (fun u => u.id == P)).isSome := by
    rw [List.find?_isSome]
    exact ⟨v, hv, by simp [hvid]⟩
  obtain ⟨t, ht⟩ := Option.isSome_iff_exists.mp hsome
  exact ⟨t, ht, fun i => by simp [reconcileCreated],
    rfl, rfl, rfl, rfl, rfl, rfl, rfl, rfl, rfl⟩

/-- Witness for C1: after a retitle and a reschedule land on the in-flight
provisional task, the task with the provisional id is still found at
reconciliation time. -/
theorem reconcileCreated_preserves_witness :
    ((applyMuts exMutations ([] ++ [exPendingTask])).find?
      (fun u => u.id == "1730000000000")).isSome = true := by
  obtain ⟨t, ht, -⟩ :=
    reconcileCreated_preserves exMutations [] "1730000000000" exPendingTask exDurableTask rfl
  rw [ht]
  rfl

end SteadyFocus
